import Mathlib

/-!
Verification of the Blah3 dictation pipeline.

The silence detector is embedded from the `process` function in
`ARCHITECTURE.md` (the only silence-detection code in the repository tree);
the dictation-session coordinator (the Rust backend under `src-tauri/`,
absent from the tree) is modelled from the specification.

Audio samples are rationals in [-1, 1].  The Rust code compares
`rms = sqrt(mean(sample^2))` against `threshold`; since both sides are
nonnegative for thresholds in the documented range (0.001 to 0.1), the
comparison `rms < threshold` is equivalent to `mean(sample^2) < threshold^2`,
which is what the embedding computes — this keeps every definition
executable over `ℚ` instead of introducing an irrational square root.
-/

namespace Blah3

/-- Mean of the squared samples of a frame, i.e. the square of the RMS
amplitude computed by `calculate_rms` in the source.  An empty frame yields
`0` (in `ℚ`, division by zero is zero). -/
def calculate_rms_sq (samples : List ℚ) : ℚ :=
  ((samples.map (fun s => s * s)).sum) / (samples.length : ℚ)

/-- State of the RMS silence detector, fields as in the source:
`threshold` (RMS threshold, compared through its square, see
`calculate_rms_sq`), `samples_needed` (required silence samples),
`silent_samples` (accumulated silent samples), `speech_detected`. -/
structure SilenceDetector where
  threshold : ℚ
  samples_needed : ℕ
  silent_samples : ℕ
  speech_detected : Bool
deriving DecidableEq

/-- The `process` function from `ARCHITECTURE.md`: classify the frame by RMS,
accumulate silence, and report whether auto-stop should trigger.  The RMS
comparison `rms < threshold` is expressed on squares. -/
def SilenceDetector.process (d : SilenceDetector) (samples : List ℚ) :
    SilenceDetector × Bool :=
  if calculate_rms_sq samples < d.threshold ^ 2 then
    let d2 : SilenceDetector := { d with silent_samples := d.silent_samples + samples.length }
    if d2.speech_detected ∧ d2.samples_needed ≤ d2.silent_samples then
      (d2, true)
    else
      (d2, false)
  else
    ({ d with silent_samples := 0, speech_detected := true }, false)

/-- Required silence samples derived from the configured duration (seconds)
and the sample rate, rounding down. -/
def required_samples (duration_s : ℚ) (sample_rate : ℕ) : ℕ :=
  (duration_s * (sample_rate : ℚ)).floor.toNat

/-- Run the detector over a sequence of frames, returning the final state and
the per-frame trigger flags. -/
def processList (d : SilenceDetector) : List (List ℚ) → SilenceDetector × List Bool
  | [] => (d, [])
  | f :: fs =>
    let r := d.process f
    let rest := processList r.1 fs
    (rest.1, r.2 :: rest.2)

/-- Detector configured as documented: threshold `0.01`, duration `1.5 s`,
sample rate `16000`, fresh session state. -/
def detector16k : SilenceDetector :=
  ⟨1 / 100, required_samples (3 / 2) 16000, 0, false⟩

/-- Modelled from the spec: the lifecycle events of §3 emitted by the
dictation-session coordinator (the Rust backend under `src-tauri/`, not in
the tree).  `audioLevel` carries the squared RMS of the frame it reports
(see `calculate_rms_sq`). -/
inductive LifecycleEvent where
  | recordingStarted (ctx : String)
  | audioLevel (level : ℚ)
  | recordingStopped
  | transcribing
  | partialTranscript (text : String)
  | result (text : String)
  | error (msg : String)
deriving DecidableEq

/-- Modelled from the spec: the states of the §4.3 state machine.  `Result`
and `Error` are terminal events after which the session returns to `idle`,
so they are events, not states. -/
inductive SessionState where
  | idle
  | recording
  | transcribing
deriving DecidableEq

/-- Modelled from the spec: the §6 configuration inputs read at session
start (the silence threshold is compared through its square, as in
`SilenceDetector`). -/
structure Config where
  silence_detection_enabled : Bool
  silence_threshold : ℚ
  required_silence_samples : ℕ
deriving DecidableEq

/-- Modelled from the spec: the inputs serialized through the coordinator's
single queue — the §6 commands (`start`, `stop`, `cancel`), arriving audio
frames, streamed transcript segments, the TranscriptionSink completion
(success or failure), and a device failure. -/
inductive Input where
  | start (ctx : String)
  | stop
  | cancel
  | frame (samples : List ℚ)
  | segment (text : String)
  | engineOk (text : String)
  | engineErr (msg : String)
  | deviceError (msg : String)
deriving DecidableEq

/-- Modelled from the spec: the reply returned synchronously to a command
issuer (§7 `InvalidCommand` taxonomy). -/
inductive CommandReply where
  | ok
  | alreadyActive
  | invalid
deriving DecidableEq

/-- Modelled from the spec: the DictationSession state of §3 — machine
state, accumulated sample buffer, detector instance, and the configuration
read at start. -/
structure Session where
  cfg : Config
  state : SessionState
  buffer : List ℚ
  detector : SilenceDetector
deriving DecidableEq

/-- Modelled from the spec: what one serialized coordinator step produces —
the new session, the lifecycle events emitted (in emission order), the
synchronous command reply, and the buffer handed to TranscriptionSink when
the step invokes it. -/
structure StepOut where
  session : Session
  events : List LifecycleEvent
  reply : CommandReply
  sinkCall : Option (List ℚ)
deriving DecidableEq

/-- Fresh detector state for a session, from the configuration. -/
def initDetector (cfg : Config) : SilenceDetector :=
  ⟨cfg.silence_threshold, cfg.required_silence_samples, 0, false⟩

/-- Modelled from the spec: an idle session with the given configuration. -/
def idleSession (cfg : Config) : Session :=
  ⟨cfg, .idle, [], initDetector cfg⟩

/-- Modelled from the spec: one transition of the §4.3 state machine (the
Rust coordinator, absent from the tree).  `start` is accepted only in
`idle`; a frame in `recording` is appended to the buffer, classified by the
detector (bypassed entirely when `silence_detection_enabled` is false), and
reported as one `audioLevel` event; a detector trigger or a `stop` command
closes capture and hands the buffer to TranscriptionSink; `cancel`
discards everything and returns to `idle` without events; engine
completion emits the terminal `result`/`error`; a device failure surfaces
as a terminal `error`. -/
def step (s : Session) : Input → StepOut
  | .start ctx =>
    match s.state with
    | .idle =>
      ⟨{ s with state := .recording, buffer := [], detector := initDetector s.cfg },
        [.recordingStarted ctx], .ok, none⟩
    | _ => ⟨s, [], .alreadyActive, none⟩
  | .stop =>
    match s.state with
    | .recording =>
      ⟨{ s with state := .transcribing }, [.recordingStopped, .transcribing], .ok,
        some s.buffer⟩
    | _ => ⟨s, [], .invalid, none⟩
  | .cancel => ⟨{ s with state := .idle, buffer := [] }, [], .ok, none⟩
  | .frame f =>
    match s.state with
    | .recording =>
      if s.cfg.silence_detection_enabled then
        let r := s.detector.process f
        if r.2 then
          ⟨{ s with state := .transcribing, buffer := s.buffer ++ f, detector := r.1 },
            [.audioLevel (calculate_rms_sq f), .recordingStopped, .transcribing], .ok,
            some (s.buffer ++ f)⟩
        else
          ⟨{ s with buffer := s.buffer ++ f, detector := r.1 },
            [.audioLevel (calculate_rms_sq f)], .ok, none⟩
      else
        ⟨{ s with buffer := s.buffer ++ f }, [.audioLevel (calculate_rms_sq f)], .ok, none⟩
    | _ => ⟨s, [], .invalid, none⟩
  | .segment t =>
    match s.state with
    | .transcribing => ⟨s, [.partialTranscript t], .ok, none⟩
    | _ => ⟨s, [], .invalid, none⟩
  | .engineOk t =>
    match s.state with
    | .transcribing => ⟨{ s with state := .idle, buffer := [] }, [.result t], .ok, none⟩
    | _ => ⟨s, [], .invalid, none⟩
  | .engineErr m =>
    match s.state with
    | .transcribing => ⟨{ s with state := .idle, buffer := [] }, [.error m], .ok, none⟩
    | _ => ⟨s, [], .invalid, none⟩
  | .deviceError m =>
    match s.state with
    | .recording => ⟨{ s with state := .idle, buffer := [] }, [.error m], .ok, none⟩
    | .transcribing => ⟨{ s with state := .idle, buffer := [] }, [.error m], .ok, none⟩
    | .idle => ⟨s, [], .invalid, none⟩

/-- Modelled from the spec: the trace of a whole run — final session, the
concatenated lifecycle events in emission order (the §4.5 EventChannel
delivers them to every observer in exactly this order), and every buffer
handed to TranscriptionSink. -/
structure RunOut where
  session : Session
  trace : List LifecycleEvent
  sinkCalls : List (List ℚ)
deriving DecidableEq

/-- Modelled from the spec: run the coordinator over a serialized input
sequence. -/
def runS (s : Session) : List Input → RunOut
  | [] => ⟨s, [], []⟩
  | i :: is =>
    let o := step s i
    let r := runS o.session is
    ⟨r.session, o.events ++ r.trace, o.sinkCall.toList ++ r.sinkCalls⟩

/-- Modelled from the spec: the step that begins a session — an accepted
`start` command from idle. -/
def sessionStart (cfg : Config) (ctx : String) : StepOut :=
  step (idleSession cfg) (.start ctx)

/-- The session at `s` stays un-terminated along `is`: no prefix of the
inputs leaves it idle (idle is reached exactly by emitting the terminal
`result`/`error`, or by a cancel).  Inputs rejected with `alreadyActive` or
`invalid` may occur freely. -/
def liveRun (s : Session) (is : List Input) : Prop :=
  ∀ xs ∈ is.inits, (runS s xs).session.state ≠ .idle

instance (s : Session) (is : List Input) : Decidable (liveRun s is) :=
  inferInstanceAs (Decidable (∀ xs ∈ is.inits, (runS s xs).session.state ≠ .idle))

/-- Whether an event is the terminal `result`/`error` of a session. -/
def isTerminalEvent : LifecycleEvent → Bool
  | .result _ => true
  | .error _ => true
  | _ => false

/-- Drop the leading run of `audioLevel` events. -/
def dropLevels : List LifecycleEvent → List LifecycleEvent
  | .audioLevel _ :: r => dropLevels r
  | l => l

/-- Drop the leading run of `partialTranscript` events. -/
def dropSegments : List LifecycleEvent → List LifecycleEvent
  | .partialTranscript _ :: r => dropSegments r
  | l => l

/-- The event-order shape claimed for every terminated session: one
`recordingStarted`, zero or more `audioLevel`, one `recordingStopped`, one
`transcribing`, zero or more `partialTranscript`, then exactly one terminal
`result` or `error`. -/
def claimedTraceShape (tr : List LifecycleEvent) : Bool :=
  match tr with
  | .recordingStarted _ :: r =>
    match dropLevels r with
    | .recordingStopped :: .transcribing :: r2 =>
      match dropSegments r2 with
      | [.result _] => true
      | [.error _] => true
      | _ => false
    | _ => false
  | _ => false

/-- The documented default configuration: detection on, threshold `0.01`,
duration `1.5 s` at 16 kHz. -/
def defaultConfig : Config :=
  ⟨true, 1 / 100, required_samples (3 / 2) 16000⟩

/-- The audio-level history update of `DictationOverlay` (per received
`stt-audio-level` event): push the new level, and when the history then
exceeds 40 entries drop the oldest one. -/
def pushLevel (history : List ℚ) (level : ℚ) : List ℚ :=
  let h2 := history ++ [level]
  if 40 < h2.length then h2.tail else h2

/-- Branch-free characterization of `SilenceDetector.process`, used by the
theorems below. -/
theorem SilenceDetector.process_eq (d : SilenceDetector) (f : List ℚ) :
    d.process f =
      if calculate_rms_sq f < d.threshold ^ 2 then
        ({ d with silent_samples := d.silent_samples + f.length },
          d.speech_detected && decide (d.samples_needed ≤ d.silent_samples + f.length))
      else
        ({ d with silent_samples := 0, speech_detected := true }, false) := by
  unfold SilenceDetector.process
  by_cases hs : calculate_rms_sq f < d.threshold ^ 2
  · simp only [hs, if_true]
    by_cases hc : (d.speech_detected = true) ∧ d.samples_needed ≤ d.silent_samples + f.length
    · simp [hc.1, hc.2]
    · rw [if_neg (by simpa using hc)]
      by_cases hb : d.speech_detected = true
      · have hle : ¬ d.samples_needed ≤ d.silent_samples + f.length := fun hx => hc ⟨hb, hx⟩
        simp [hb, hle]
      · have hb2 : d.speech_detected = false := by simpa using hb
        simp [hb2]
  · simp [hs]

/-- Speech stays detected over an arbitrary frame sequence (helper for the
latch and trigger theorems). -/
theorem processList_keeps_speech (fs : List (List ℚ)) :
    ∀ d : SilenceDetector, d.speech_detected = true →
      (processList d fs).1.speech_detected = true := by
  induction fs with
  | nil => intro d hd; simpa [processList] using hd
  | cons f fs ih =>
    intro d hd
    simp only [processList]
    apply ih
    rw [SilenceDetector.process_eq]
    by_cases hs : calculate_rms_sq f < d.threshold ^ 2 <;> simp [hs, hd]

/-- While no frame has reached the threshold, `speech_detected` stays false
and no step triggers (helper for the trigger-invariant theorem). -/
theorem processList_all_silent (th : ℚ) (n : ℕ) (fs : List (List ℚ))
    (h : ∀ f ∈ fs, calculate_rms_sq f < th ^ 2) :
    ∀ c : ℕ,
      (processList ⟨th, n, c, false⟩ fs).1.speech_detected = false ∧
      ((processList ⟨th, n, c, false⟩ fs).2.any id) = false := by
  induction fs with
  | nil => intro c; simp [processList]
  | cons f fs ih =>
    intro c
    have hf : calculate_rms_sq f < th ^ 2 := h f (List.mem_cons_self f fs)
    have ih2 := ih (fun g hg => h g (List.mem_cons_of_mem f hg)) (c + f.length)
    simp only [processList, SilenceDetector.process_eq]
    simp only [hf, if_true]
    simpa using ih2

/-- C1.  The auto-stop trigger is returned true only with `speech_detected`
true and the accumulated silent samples at or above the requirement; and
from a fresh session state, a frame sequence in which every frame is below
the RMS threshold never triggers. -/
theorem silence_trigger_invariant :
    (∀ (d : SilenceDetector) (f : List ℚ), (d.process f).2 = true →
      (d.process f).1.speech_detected = true ∧
      (d.process f).1.samples_needed ≤ (d.process f).1.silent_samples) ∧
    (∀ (th : ℚ) (n : ℕ) (fs : List (List ℚ)),
      (∀ f ∈ fs, calculate_rms_sq f < th ^ 2) →
      ((processList ⟨th, n, 0, false⟩ fs).2.any id) = false) := by
  constructor
  · intro d f h
    rw [SilenceDetector.process_eq] at h ⊢
    by_cases hs : calculate_rms_sq f < d.threshold ^ 2
    · simp only [hs, if_true] at h ⊢
      simp only [Bool.and_eq_true, decide_eq_true_eq] at h
      exact ⟨h.1, h.2⟩
    · simp [hs] at h
  · intro th n fs h
    exact (processList_all_silent th n fs h 0).2

/-- C1 witness: a concrete triggering step satisfies the invariant, and a
concrete all-silent fresh sequence never triggers. -/
theorem silence_trigger_invariant_check :
    ((SilenceDetector.mk (1 / 100) 0 0 true).process [0]).1.speech_detected = true ∧
    ((processList ⟨1 / 100, 24000, 0, false⟩ [[0], [0]]).2.any id) = false := by
  constructor
  · exact (silence_trigger_invariant.1 ⟨1 / 100, 0, 0, true⟩ [0]
      (by rw [SilenceDetector.process_eq]; norm_num [calculate_rms_sq])).1
  · exact silence_trigger_invariant.2 (1 / 100) 24000 [[0], [0]]
      (by intro f hf; fin_cases hf <;> norm_num [calculate_rms_sq])

/-- The squared RMS of an all-zero frame is zero. -/
theorem calculate_rms_sq_of_zeros (f : List ℚ) (h : ∀ q ∈ f, q = 0) :
    calculate_rms_sq f = 0 := by
  unfold calculate_rms_sq
  have hz : (f.map (fun s => s * s)).sum = 0 := by
    apply List.sum_eq_zero
    intro x hx
    rcases List.mem_map.mp hx with ⟨q, hq, rfl⟩
    rw [h q hq, mul_zero]
  rw [hz, zero_div]

/-- The detector reports one trigger flag per frame. -/
theorem processList_length (d : SilenceDetector) (fs : List (List ℚ)) :
    (processList d fs).2.length = fs.length := by
  induction fs generalizing d with
  | nil => simp [processList]
  | cons f fs ih => simp [processList, ih]

/-- Unfolding equation of `processList` on a nonempty frame list. -/
theorem processList_cons (d : SilenceDetector) (f : List ℚ) (fs : List (List ℚ)) :
    processList d (f :: fs) =
      ((processList (d.process f).1 fs).1, (d.process f).2 :: (processList (d.process f).1 fs).2) :=
  rfl

/-- Over all-zero frames with speech already detected, the step at index `i`
triggers exactly when the silent-sample counter has reached `n` (helper for
the timing theorem). -/
theorem processList_zeros_trigger (th : ℚ) (hth : 0 < th ^ 2) (n : ℕ) :
    ∀ fs : List (List ℚ), (∀ f ∈ fs, ∀ q ∈ f, q = (0 : ℚ)) →
    ∀ c i : ℕ, i < fs.length →
      (((processList ⟨th, n, c, true⟩ fs).2.getD i false) = true ↔
        n ≤ c + ((fs.take (i + 1)).map List.length).sum) := by
  intro fs
  induction fs with
  | nil =>
    intro _ c i hi
    simp at hi
  | cons f fs ih =>
    intro h c i hi
    have hf0 : calculate_rms_sq f = 0 :=
      calculate_rms_sq_of_zeros f (h f (List.mem_cons_self f fs))
    have hsil : calculate_rms_sq f < th ^ 2 := by rw [hf0]; exact hth
    have hstep : SilenceDetector.process ⟨th, n, c, true⟩ f =
        (⟨th, n, c + f.length, true⟩, decide (n ≤ c + f.length)) := by
      rw [SilenceDetector.process_eq]
      simp [hsil]
    rw [processList_cons, hstep]
    cases i with
    | zero => simp
    | succ j =>
      have hj : j < fs.length := by simpa using hi
      have := ih (fun g hg => h g (List.mem_cons_of_mem f hg)) (c + f.length) j hj
      simpa [Nat.add_assoc] using this

/-- C5.  With threshold `0.01` and 1.5 s at 16 kHz (24000 samples): after
one frame at or above the RMS threshold, a sequence of all-zero frames
triggers at step `i` exactly when the zero samples accumulated through step
`i` have reached 24000 — never before, and from then on always. -/
theorem silence_trigger_timing (f0 : List ℚ) (fs : List (List ℚ))
    (h0 : ¬ calculate_rms_sq f0 < (1 / 100 : ℚ) ^ 2)
    (hz : ∀ f ∈ fs, ∀ q ∈ f, q = (0 : ℚ)) :
    ∀ i : ℕ, i < fs.length →
      (((processList (detector16k.process f0).1 fs).2.getD i false) = true ↔
        24000 ≤ ((fs.take (i + 1)).map List.length).sum) := by
  have hreq : required_samples (3 / 2) 16000 = 24000 := by
    norm_num [required_samples]; decide
  have hd : (detector16k.process f0).1 = ⟨1 / 100, 24000, 0, true⟩ := by
    have hth : detector16k.threshold = 1 / 100 := rfl
    rw [SilenceDetector.process_eq, hth, if_neg h0]
    simp [detector16k, hreq]
  rw [hd]
  intro i hi
  have := processList_zeros_trigger (1 / 100) (by norm_num) 24000 fs hz 0 i hi
  simpa using this

/-- C5 witness: concretely, a loud frame followed by two one-sample zero
frames has not triggered at the first zero frame. -/
theorem silence_trigger_timing_check :
    (((processList (detector16k.process [1 / 10]).1 [[0], [0]]).2.getD 0 false) = true) ↔
      24000 ≤ (([[0], [0]].take 1).map (List.length (α := ℚ))).sum := by
  exact silence_trigger_timing [1 / 10] [[0], [0]]
    (by norm_num [calculate_rms_sq])
    (by intro f hf; fin_cases hf <;> simp) 0 (by norm_num)

/-- C6.  A frame at or above the RMS threshold resets the silent-sample
counter to zero and sets `speech_detected`; and once `speech_detected` is
true it stays true after any further step, and over any further frame
sequence. -/
theorem speech_detection_latch :
    (∀ (d : SilenceDetector) (f : List ℚ), ¬ calculate_rms_sq f < d.threshold ^ 2 →
      d.process f = ({ d with silent_samples := 0, speech_detected := true }, false)) ∧
    (∀ (d : SilenceDetector) (f : List ℚ), d.speech_detected = true →
      (d.process f).1.speech_detected = true) ∧
    (∀ (d : SilenceDetector) (fs : List (List ℚ)), d.speech_detected = true →
      (processList d fs).1.speech_detected = true) := by
  refine ⟨?_, ?_, ?_⟩
  · intro d f h
    rw [SilenceDetector.process_eq, if_neg h]
  · intro d f h
    rw [SilenceDetector.process_eq]
    by_cases hs : calculate_rms_sq f < d.threshold ^ 2 <;> simp [hs, h]
  · intro d fs h
    exact processList_keeps_speech fs d h

/-- C6 witness: a concrete loud frame resets the counter and latches
speech, and the latch survives a concrete further sequence. -/
theorem speech_detection_latch_check :
    SilenceDetector.process ⟨1 / 100, 24000, 7, false⟩ [1 / 10] =
      (⟨1 / 100, 24000, 0, true⟩, false) ∧
    (processList ⟨1 / 100, 24000, 0, true⟩ [[0], [1 / 10]]).1.speech_detected = true := by
  constructor
  · exact speech_detection_latch.1 ⟨1 / 100, 24000, 7, false⟩ [1 / 10]
      (by norm_num [calculate_rms_sq])
  · exact speech_detection_latch.2.2 ⟨1 / 100, 24000, 0, true⟩ [[0], [1 / 10]] rfl

/-- C7.  For any threshold in the documented range the detector's step is
total and its silent-sample counter is exactly characterized (no arithmetic
failure is possible in the exact-arithmetic embedding); and when the
configured duration rounds to zero required samples, every silent frame
after detected speech triggers immediately. -/
theorem detector_tolerates_range :
    ∀ th : ℚ, 1 / 1000 ≤ th → th ≤ 1 / 10 →
    ∀ (d : SilenceDetector) (f : List ℚ), d.threshold = th →
      ((d.process f).1.silent_samples =
        if calculate_rms_sq f < th ^ 2 then d.silent_samples + f.length else 0) ∧
      (d.samples_needed = 0 → d.speech_detected = true →
        calculate_rms_sq f < th ^ 2 → (d.process f).2 = true) := by
  intro th _ _ d f hth
  constructor
  · rw [SilenceDetector.process_eq, hth]
    by_cases hs : calculate_rms_sq f < th ^ 2 <;> simp [hs]
  · intro hn hsp hs
    rw [SilenceDetector.process_eq, hth]
    simp [hs, hsp, hn]

/-- C7 witness: with the minimum documented threshold and a zero-sample
requirement, a concrete silent frame after speech triggers at once. -/
theorem detector_tolerates_range_check :
    (SilenceDetector.process ⟨1 / 1000, 0, 5, true⟩ [0]).1.silent_samples = 6 ∧
    (SilenceDetector.process ⟨1 / 1000, 0, 5, true⟩ [0]).2 = true := by
  have h := detector_tolerates_range (1 / 1000) le_rfl (by norm_num)
    ⟨1 / 1000, 0, 5, true⟩ [0] rfl
  have hs : calculate_rms_sq [0] < (1 / 1000 : ℚ) ^ 2 := by
    norm_num [calculate_rms_sq]
  constructor
  · rw [h.1, if_pos hs]
    rfl
  · exact h.2 rfl rfl hs

/-- Unfolding equation of `runS` on a nonempty input list. -/
theorem runS_cons (s : Session) (i : Input) (is : List Input) :
    runS s (i :: is) =
      ⟨(runS (step s i).session is).session,
        (step s i).events ++ (runS (step s i).session is).trace,
        (step s i).sinkCall.toList ++ (runS (step s i).session is).sinkCalls⟩ :=
  rfl

/-- Runs compose over list append. -/
theorem runS_append (xs ys : List Input) :
    ∀ s : Session, runS s (xs ++ ys) =
      ⟨(runS (runS s xs).session ys).session,
        (runS s xs).trace ++ (runS (runS s xs).session ys).trace,
        (runS s xs).sinkCalls ++ (runS (runS s xs).session ys).sinkCalls⟩ := by
  induction xs with
  | nil => intro s; simp [runS]
  | cons i is ih =>
    intro s
    rw [List.cons_append, runS_cons, runS_cons]
    simp [ih (step s i).session, List.append_assoc]

/-- C3.  A `start` command while the session is recording or transcribing is
replied to with `alreadyActive` and changes nothing: same session (state and
buffer included), no event, no sink call. -/
theorem start_already_active :
    ∀ (s : Session) (ctx : String),
      s.state = .recording ∨ s.state = .transcribing →
      step s (.start ctx) = ⟨s, [], .alreadyActive, none⟩ := by
  intro s ctx h
  obtain ⟨cfg, st, buf, det⟩ := s
  rcases h with h | h <;> (simp only at h; subst h; rfl)

/-- C3 witness: a concrete `start` during recording is a rejected no-op. -/
theorem start_already_active_check :
    step ⟨defaultConfig, .recording, [1 / 2], initDetector defaultConfig⟩ (.start "Mail") =
      ⟨⟨defaultConfig, .recording, [1 / 2], initDetector defaultConfig⟩, [],
        .alreadyActive, none⟩ :=
  start_already_active ⟨defaultConfig, .recording, [1 / 2], initDetector defaultConfig⟩
    "Mail" (Or.inl rfl)

/-- C4 counterexample to the claim as stated: in the session
`start; stop; cancel` the cancel arrives while transcribing — before any
`result`/`error` was emitted (the trace holds no terminal event and the
session ends idle) — yet TranscriptionSink has been invoked for the
session (at the `stop`). -/
theorem cancel_sink_counterexample :
    (runS (idleSession defaultConfig) [.start "Mail", .stop, .cancel]).sinkCalls = [[]] ∧
    ((runS (idleSession defaultConfig) [.start "Mail", .stop, .cancel]).trace.any
      isTerminalEvent) = false ∧
    (runS (idleSession defaultConfig) [.start "Mail", .stop, .cancel]).session.state =
      .idle := by
  exact ⟨rfl, rfl, rfl⟩

/-- C9.  A `stop` while recording always proceeds: the session moves to
transcribing, emits `recordingStopped` then `transcribing`, and hands the
accumulated buffer — even an empty one — to TranscriptionSink; and an
engine success (any text, the empty transcript included) is delivered as a
`result` event, never an `error`. -/
theorem stop_always_transcribes :
    ∀ s : Session, s.state = .recording →
      step s .stop =
        ⟨{ s with state := .transcribing }, [.recordingStopped, .transcribing], .ok,
          some s.buffer⟩ ∧
      (∀ (s2 : Session) (t : String), s2.state = .transcribing →
        step s2 (.engineOk t) =
          ⟨{ s2 with state := .idle, buffer := [] }, [.result t], .ok, none⟩) := by
  intro s hs
  constructor
  · obtain ⟨cfg, st, buf, det⟩ := s
    simp only at hs
    subst hs
    rfl
  · intro s2 t h2
    obtain ⟨cfg, st, buf, det⟩ := s2
    simp only at h2
    subst h2
    rfl

/-- C9 witness: a concrete `stop` with an empty buffer still reaches the
engine with that empty buffer, and an empty transcript comes back as a
`result` event. -/
theorem stop_always_transcribes_check :
    step ⟨defaultConfig, .recording, [], initDetector defaultConfig⟩ .stop =
      ⟨⟨defaultConfig, .transcribing, [], initDetector defaultConfig⟩,
        [.recordingStopped, .transcribing], .ok, some []⟩ ∧
    step ⟨defaultConfig, .transcribing, [], initDetector defaultConfig⟩ (.engineOk "") =
      ⟨⟨defaultConfig, .idle, [], initDetector defaultConfig⟩, [.result ""], .ok, none⟩ := by
  have h := stop_always_transcribes
    ⟨defaultConfig, .recording, [], initDetector defaultConfig⟩ rfl
  exact ⟨h.1, h.2 ⟨defaultConfig, .transcribing, [], initDetector defaultConfig⟩ "" rfl⟩

/-- C8.  With `silence_detection_enabled` false at session start, the
detector is bypassed: no frame sequence — however much sustained silence it
holds — ever ends the recording state, and an explicit `stop` still does. -/
theorem disabled_detection_no_auto_stop :
    ∀ s : Session, s.cfg.silence_detection_enabled = false → s.state = .recording →
    ∀ frames : List (List ℚ),
      (runS s (frames.map Input.frame)).session.state = .recording ∧
      (step (runS s (frames.map Input.frame)).session .stop).session.state =
        .transcribing := by
  intro s hen hs frames
  induction frames generalizing s with
  | nil =>
    refine ⟨hs, ?_⟩
    obtain ⟨cfg, st, buf, det⟩ := s
    simp only at hs
    subst hs
    rfl
  | cons f fs ih =>
    have hstep : step s (.frame f) =
        ⟨{ s with buffer := s.buffer ++ f }, [.audioLevel (calculate_rms_sq f)], .ok,
          none⟩ := by
      obtain ⟨cfg, st, buf, det⟩ := s
      simp only at hs hen
      subst hs
      simp [step, hen]
    rw [List.map_cons, runS_cons, hstep]
    exact ih { s with buffer := s.buffer ++ f } hen hs

/-- C8 witness: with detection disabled, a concrete long all-zero frame
sequence leaves the session recording, and `stop` ends it. -/
theorem disabled_detection_no_auto_stop_check :
    (runS ⟨⟨false, 1 / 100, 0⟩, .recording, [], initDetector ⟨false, 1 / 100, 0⟩⟩
        ([[0], [0], [0]].map Input.frame)).session.state = .recording ∧
    (step (runS ⟨⟨false, 1 / 100, 0⟩, .recording, [], initDetector ⟨false, 1 / 100, 0⟩⟩
        ([[0], [0], [0]].map Input.frame)).session .stop).session.state = .transcribing :=
  disabled_detection_no_auto_stop
    ⟨⟨false, 1 / 100, 0⟩, .recording, [], initDetector ⟨false, 1 / 100, 0⟩⟩ rfl rfl
    [[0], [0], [0]]

/-- Peeling one input off a live run: the step's successor is not idle and
the rest of the run is live from it. -/
theorem liveRun_cons (s : Session) (i : Input) (is : List Input)
    (h : liveRun s (i :: is)) :
    (step s i).session.state ≠ .idle ∧ liveRun (step s i).session is := by
  constructor
  · have := h [i] (by
      rw [List.mem_inits]
      exact List.cons_prefix_cons.mpr ⟨rfl, List.nil_prefix⟩)
    simpa [runS_cons, runS] using this
  · intro xs hxs
    have hmem : (i :: xs) ∈ (i :: is).inits := by
      rw [List.mem_inits] at hxs ⊢
      exact List.cons_prefix_cons.mpr ⟨rfl, hxs⟩
    have := h (i :: xs) hmem
    simpa [runS_cons] using this

/-- From a transcribing session, any live input sequence (rejected commands
included) keeps it transcribing, emits only `partialTranscript` events in
segment order, and never invokes the sink (helper for the event-order and
cancel theorems). -/
theorem runS_transcribing (is : List Input) :
    ∀ s : Session, s.state = .transcribing → liveRun s is →
      (runS s is).session.state = .transcribing ∧
      (∃ ps : List String,
        (runS s is).trace = ps.map LifecycleEvent.partialTranscript) ∧
      (runS s is).sinkCalls = [] := by
  induction is with
  | nil => intro s hs _; exact ⟨hs, ⟨[], rfl⟩, rfl⟩
  | cons i is ih =>
    intro s hs hlive
    obtain ⟨hne, hlive2⟩ := liveRun_cons s i is hlive
    cases i with
    | start c =>
      have hstep : step s (.start c) = ⟨s, [], .alreadyActive, none⟩ := by
        obtain ⟨cfg, st, buf, det⟩ := s
        simp only at hs
        subst hs
        rfl
      rw [hstep] at hlive2
      rw [runS_cons, hstep]
      simpa using ih s hs hlive2
    | stop =>
      have hstep : step s .stop = ⟨s, [], .invalid, none⟩ := by
        obtain ⟨cfg, st, buf, det⟩ := s
        simp only at hs
        subst hs
        rfl
      rw [hstep] at hlive2
      rw [runS_cons, hstep]
      simpa using ih s hs hlive2
    | frame f =>
      have hstep : step s (.frame f) = ⟨s, [], .invalid, none⟩ := by
        obtain ⟨cfg, st, buf, det⟩ := s
        simp only at hs
        subst hs
        rfl
      rw [hstep] at hlive2
      rw [runS_cons, hstep]
      simpa using ih s hs hlive2
    | segment t =>
      have hstep : step s (.segment t) = ⟨s, [.partialTranscript t], .ok, none⟩ := by
        obtain ⟨cfg, st, buf, det⟩ := s
        simp only at hs
        subst hs
        rfl
      rw [hstep] at hlive2
      rw [runS_cons, hstep]
      obtain ⟨h1, ⟨ps, htr⟩, h3⟩ := ih s hs hlive2
      exact ⟨h1, ⟨t :: ps, by simp [htr]⟩, by simpa using h3⟩
    | cancel => exact absurd rfl hne
    | engineOk t =>
      exfalso
      apply hne
      obtain ⟨cfg, st, buf, det⟩ := s
      simp only at hs
      subst hs
      rfl
    | engineErr m =>
      exfalso
      apply hne
      obtain ⟨cfg, st, buf, det⟩ := s
      simp only at hs
      subst hs
      rfl
    | deviceError m =>
      exfalso
      apply hne
      obtain ⟨cfg, st, buf, det⟩ := s
      simp only at hs
      subst hs
      rfl

/-- From a recording session, any live input sequence (rejected commands
included) either keeps it recording with only `audioLevel` events emitted
and the sink never invoked, or has moved it to transcribing with the trace
`audioLevel`s, then `recordingStopped`, `transcribing`, then
`partialTranscript`s (helper for the event-order and cancel theorems). -/
theorem runS_recording (is : List Input) :
    ∀ s : Session, s.state = .recording → liveRun s is →
      ((runS s is).session.state = .recording →
        (∃ ls : List ℚ, (runS s is).trace = ls.map LifecycleEvent.audioLevel) ∧
        (runS s is).sinkCalls = []) ∧
      ((runS s is).session.state = .transcribing →
        ∃ (ls : List ℚ) (ps : List String),
          (runS s is).trace =
            ls.map LifecycleEvent.audioLevel ++ [.recordingStopped, .transcribing] ++
              ps.map LifecycleEvent.partialTranscript) := by
  induction is with
  | nil =>
    intro s hs _
    refine ⟨fun _ => ⟨⟨[], rfl⟩, rfl⟩, fun h => ?_⟩
    simp only [runS] at h
    rw [hs] at h
    exact absurd h (by decide)
  | cons i is ih =>
    intro s hs hlive
    obtain ⟨hne, hlive2⟩ := liveRun_cons s i is hlive
    cases i with
    | start c =>
      have hstep : step s (.start c) = ⟨s, [], .alreadyActive, none⟩ := by
        obtain ⟨cfg, st, buf, det⟩ := s
        simp only at hs
        subst hs
        rfl
      rw [hstep] at hlive2
      rw [runS_cons, hstep]
      simpa using ih s hs hlive2
    | segment t =>
      have hstep : step s (.segment t) = ⟨s, [], .invalid, none⟩ := by
        obtain ⟨cfg, st, buf, det⟩ := s
        simp only at hs
        subst hs
        rfl
      rw [hstep] at hlive2
      rw [runS_cons, hstep]
      simpa using ih s hs hlive2
    | engineOk t =>
      have hstep : step s (.engineOk t) = ⟨s, [], .invalid, none⟩ := by
        obtain ⟨cfg, st, buf, det⟩ := s
        simp only at hs
        subst hs
        rfl
      rw [hstep] at hlive2
      rw [runS_cons, hstep]
      simpa using ih s hs hlive2
    | engineErr m =>
      have hstep : step s (.engineErr m) = ⟨s, [], .invalid, none⟩ := by
        obtain ⟨cfg, st, buf, det⟩ := s
        simp only at hs
        subst hs
        rfl
      rw [hstep] at hlive2
      rw [runS_cons, hstep]
      simpa using ih s hs hlive2
    | cancel => exact absurd rfl hne
    | deviceError m =>
      exfalso
      apply hne
      obtain ⟨cfg, st, buf, det⟩ := s
      simp only at hs
      subst hs
      rfl
    | stop =>
      have hstep : step s .stop =
          ⟨{ s with state := .transcribing }, [.recordingStopped, .transcribing], .ok,
            some s.buffer⟩ := by
        obtain ⟨cfg, st, buf, det⟩ := s
        simp only at hs
        subst hs
        rfl
      rw [hstep] at hlive2
      rw [runS_cons, hstep]
      obtain ⟨h1, ⟨ps, htr⟩, -⟩ :=
        runS_transcribing is { s with state := .transcribing } rfl hlive2
      constructor
      · intro hrec
        rw [h1] at hrec
        simp at hrec
      · intro _
        exact ⟨[], ps, by simp [htr]⟩
    | frame f =>
      by_cases hen : s.cfg.silence_detection_enabled = true
      · by_cases htrig : (s.detector.process f).2 = true
        · have hstep : step s (.frame f) =
              ⟨{ s with
                  state := .transcribing
                  buffer := s.buffer ++ f
                  detector := (s.detector.process f).1 },
                [.audioLevel (calculate_rms_sq f), .recordingStopped, .transcribing], .ok,
                some (s.buffer ++ f)⟩ := by
            obtain ⟨cfg, st, buf, det⟩ := s
            simp only at hs hen htrig
            subst hs
            simp [step, hen, htrig]
          rw [hstep] at hlive2
          rw [runS_cons, hstep]
          obtain ⟨h1, ⟨ps, htr⟩, -⟩ := runS_transcribing is
            { s with
              state := .transcribing
              buffer := s.buffer ++ f
              detector := (s.detector.process f).1 } rfl hlive2
          constructor
          · intro hrec
            rw [h1] at hrec
            simp at hrec
          · intro _
            exact ⟨[calculate_rms_sq f], ps, by simp [htr]⟩
        · have hstep : step s (.frame f) =
              ⟨{ s with buffer := s.buffer ++ f, detector := (s.detector.process f).1 },
                [.audioLevel (calculate_rms_sq f)], .ok, none⟩ := by
            obtain ⟨cfg, st, buf, det⟩ := s
            simp only at hs hen htrig
            subst hs
            simp [step, hen, htrig]
          rw [hstep] at hlive2
          rw [runS_cons, hstep]
          have h := ih { s with buffer := s.buffer ++ f, detector := (s.detector.process f).1 }
            hs hlive2
          constructor
          · intro hrec
            obtain ⟨⟨ls, htr⟩, hsk⟩ := h.1 (by simpa using hrec)
            exact ⟨⟨calculate_rms_sq f :: ls, by simp [htr]⟩, by simp [hsk]⟩
          · intro htrans
            obtain ⟨ls, ps, htr⟩ := h.2 (by simpa using htrans)
            exact ⟨calculate_rms_sq f :: ls, ps, by simp [htr]⟩
      · have hen2 : s.cfg.silence_detection_enabled = false := by simpa using hen
        have hstep : step s (.frame f) =
            ⟨{ s with buffer := s.buffer ++ f }, [.audioLevel (calculate_rms_sq f)], .ok,
              none⟩ := by
          obtain ⟨cfg, st, buf, det⟩ := s
          simp only at hs hen2
          subst hs
          simp [step, hen2]
        rw [hstep] at hlive2
        rw [runS_cons, hstep]
        have h := ih { s with buffer := s.buffer ++ f } hs hlive2
        constructor
        · intro hrec
          obtain ⟨⟨ls, htr⟩, hsk⟩ := h.1 (by simpa using hrec)
          exact ⟨⟨calculate_rms_sq f :: ls, by simp [htr]⟩, by simp [hsk]⟩
        · intro htrans
          obtain ⟨ls, ps, htr⟩ := h.2 (by simpa using htrans)
          exact ⟨calculate_rms_sq f :: ls, ps, by simp [htr]⟩

/-- A non-cancel input that leaves a transcribing session idle is a
terminating one, and emits exactly one terminal event. -/
theorem step_transcribing_to_idle (s2 : Session) (h2 : s2.state = .transcribing)
    (last : Input) (hlast : last ≠ .cancel)
    (hidle : (step s2 last).session.state = .idle) :
    ∃ e, isTerminalEvent e = true ∧ (step s2 last).events = [e] := by
  obtain ⟨c2, st2, b2, d2⟩ := s2
  simp only at h2
  subst h2
  cases last with
  | engineOk t => exact ⟨.result t, rfl, rfl⟩
  | engineErr m => exact ⟨.error m, rfl, rfl⟩
  | deviceError m => exact ⟨.error m, rfl, rfl⟩
  | cancel => exact absurd rfl hlast
  | start c => simp [step] at hidle
  | stop => simp [step] at hidle
  | frame f => simp [step] at hidle
  | segment t => simp [step] at hidle

/-- A non-cancel input that leaves a recording session idle is necessarily
a device failure, and emits exactly its terminal `error`. -/
theorem step_recording_to_idle (s2 : Session) (h2 : s2.state = .recording)
    (last : Input) (hlast : last ≠ .cancel)
    (hidle : (step s2 last).session.state = .idle) :
    ∃ m, last = .deviceError m ∧ (step s2 last).events = [.error m] := by
  obtain ⟨c2, st2, b2, d2⟩ := s2
  simp only at h2
  subst h2
  cases last with
  | deviceError m => exact ⟨m, rfl, rfl⟩
  | cancel => exact absurd rfl hlast
  | start c => simp [step] at hidle
  | stop => simp [step] at hidle
  | segment t => simp [step] at hidle
  | engineOk t => simp [step] at hidle
  | engineErr m => simp [step] at hidle
  | frame f =>
    exfalso
    simp only [step] at hidle
    by_cases hen : c2.silence_detection_enabled = true
    · by_cases htrig : (SilenceDetector.process d2 f).2 = true
      · simp [hen, htrig] at hidle
      · simp [hen, htrig] at hidle
    · have hen2 : c2.silence_detection_enabled = false := by simpa using hen
      simp [hen2] at hidle

/-- C4 (amended).  A `cancel` command in any state moves the session
directly to idle with the buffer discarded, emits no event (hence neither
`result` nor `error`) and itself never hands a buffer to TranscriptionSink;
and when the cancel arrives while a session is still recording — not yet
terminated at any point since it was recording — the whole run, the cancel
included, has never invoked TranscriptionSink. -/
theorem cancel_discards_session :
    (∀ s : Session,
      step s .cancel = ⟨{ s with state := .idle, buffer := [] }, [], .ok, none⟩) ∧
    (∀ (is : List Input) (s : Session), s.state = .recording → liveRun s is →
      (runS s is).session.state = .recording →
      (runS s (is ++ [.cancel])).sinkCalls = []) := by
  constructor
  · intro s
    rfl
  · intro is s hs hlive hrec
    have hsk := ((runS_recording is s hs hlive).1 hrec).2
    rw [runS_append]
    simp only [runS_cons, runS, hsk]
    rfl

/-- C4 witness: cancelling a concrete transcribing session goes straight to
idle with nothing emitted, and a concrete still-recording run (one rejected
segment, then the cancel) never invokes the sink. -/
theorem cancel_discards_session_check :
    step ⟨defaultConfig, .transcribing, [1 / 2], initDetector defaultConfig⟩ .cancel =
      ⟨⟨defaultConfig, .idle, [], initDetector defaultConfig⟩, [], .ok, none⟩ ∧
    (runS ⟨defaultConfig, .recording, [], initDetector defaultConfig⟩
      ([.segment "x"] ++ [.cancel])).sinkCalls = [] := by
  constructor
  · exact cancel_discards_session.1
      ⟨defaultConfig, .transcribing, [1 / 2], initDetector defaultConfig⟩
  · exact cancel_discards_session.2 [.segment "x"]
      ⟨defaultConfig, .recording, [], initDetector defaultConfig⟩ rfl
      (by decide) (by decide)

/-- C2 (amended).  For a session begun by an accepted `start` and not yet
terminated (no prefix of its inputs has emitted the terminal or cancelled;
rejected commands may occur freely): while recording, its delivered trace
is exactly one `recordingStarted` then `audioLevel`s; once transcribing,
exactly `recordingStarted`, `audioLevel`s, one `recordingStopped`, one
`transcribing`, then `partialTranscript`s in segment order.  When a further
non-cancel input terminates the session, either it arrives during
transcribing — engine success, engine failure or device failure — and the
trace is extended by exactly one terminal `result`/`error` in last
position, or the session was still recording, the input is necessarily a
device failure, and the trace is `recordingStarted`, the `audioLevel`s,
then the terminal `error` directly, with no `recordingStopped` or
`transcribing`.  Observers receive the events in emission order. -/
theorem session_event_order (cfg : Config) (ctx : String) :
    (∀ is : List Input, liveRun (sessionStart cfg ctx).session is →
      ((runS (sessionStart cfg ctx).session is).session.state = .recording →
        ∃ ls : List ℚ,
          (sessionStart cfg ctx).events ++
              (runS (sessionStart cfg ctx).session is).trace =
            LifecycleEvent.recordingStarted ctx :: ls.map LifecycleEvent.audioLevel) ∧
      ((runS (sessionStart cfg ctx).session is).session.state = .transcribing →
        ∃ (ls : List ℚ) (ps : List String),
          (sessionStart cfg ctx).events ++
              (runS (sessionStart cfg ctx).session is).trace =
            LifecycleEvent.recordingStarted ctx ::
              (ls.map LifecycleEvent.audioLevel ++ [.recordingStopped, .transcribing] ++
                ps.map LifecycleEvent.partialTranscript))) ∧
    (∀ (mid : List Input) (last : Input),
      liveRun (sessionStart cfg ctx).session mid → last ≠ .cancel →
      (runS (sessionStart cfg ctx).session (mid ++ [last])).session.state = .idle →
      (((runS (sessionStart cfg ctx).session mid).session.state = .transcribing →
        ∃ (ls : List ℚ) (ps : List String) (e : LifecycleEvent),
          isTerminalEvent e = true ∧
          (sessionStart cfg ctx).events ++
              (runS (sessionStart cfg ctx).session (mid ++ [last])).trace =
            LifecycleEvent.recordingStarted ctx ::
              (ls.map LifecycleEvent.audioLevel ++ [.recordingStopped, .transcribing] ++
                ps.map LifecycleEvent.partialTranscript ++ [e])) ∧
      ((runS (sessionStart cfg ctx).session mid).session.state = .recording →
        ∃ (ls : List ℚ) (m : String),
          last = .deviceError m ∧
          (sessionStart cfg ctx).events ++
              (runS (sessionStart cfg ctx).session (mid ++ [last])).trace =
            LifecycleEvent.recordingStarted ctx ::
              (ls.map LifecycleEvent.audioLevel ++ [.error m])))) := by
  have hs1 : (sessionStart cfg ctx).session.state = .recording := rfl
  have hev : (sessionStart cfg ctx).events = [.recordingStarted ctx] := rfl
  constructor
  · intro is hlive
    have h := runS_recording is _ hs1 hlive
    constructor
    · intro h1
      obtain ⟨⟨ls, htr⟩, -⟩ := h.1 h1
      exact ⟨ls, by simp [hev, htr]⟩
    · intro h1
      obtain ⟨ls, ps, htr⟩ := h.2 h1
      exact ⟨ls, ps, by simp [hev, htr]⟩
  · intro mid last hlive hlast hidle
    have hidle2 :
        (step (runS (sessionStart cfg ctx).session mid).session last).session.state =
          .idle := by
      rw [runS_append] at hidle
      simpa [runS_cons, runS] using hidle
    constructor
    · intro htrans
      obtain ⟨ls, ps, htr⟩ := (runS_recording mid _ hs1 hlive).2 htrans
      obtain ⟨e, he, hev2⟩ :=
        step_transcribing_to_idle _ htrans last hlast hidle2
      have htr2 :
          (runS (runS (sessionStart cfg ctx).session mid).session [last]).trace = [e] := by
        simp [runS_cons, runS, hev2]
      refine ⟨ls, ps, e, he, ?_⟩
      rw [runS_append]
      simp [hev, htr, htr2]
    · intro hrec
      obtain ⟨⟨ls, htr⟩, -⟩ := (runS_recording mid _ hs1 hlive).1 hrec
      obtain ⟨m, hm, hev2⟩ := step_recording_to_idle _ hrec last hlast hidle2
      have htr2 :
          (runS (runS (sessionStart cfg ctx).session mid).session [last]).trace =
            [.error m] := by
        simp [runS_cons, runS, hev2]
      refine ⟨ls, m, hm, ?_⟩
      rw [runS_append]
      simp [hev, htr, htr2]

/-- C2 witness: a concrete `start; (rejected start); stop; segment;
engineOk` session emits exactly the claimed full order. -/
theorem session_event_order_check :
    ∃ (ls : List ℚ) (ps : List String) (e : LifecycleEvent),
      isTerminalEvent e = true ∧
      (sessionStart defaultConfig "Notes").events ++
          (runS (sessionStart defaultConfig "Notes").session
            ([.start "Mail", .stop, .segment "he"] ++ [.engineOk "hello"])).trace =
        LifecycleEvent.recordingStarted "Notes" ::
          (ls.map LifecycleEvent.audioLevel ++ [.recordingStopped, .transcribing] ++
            ps.map LifecycleEvent.partialTranscript ++ [e]) :=
  ((session_event_order defaultConfig "Notes").2 [.start "Mail", .stop, .segment "he"]
    (.engineOk "hello") (by decide) (by decide) (by decide)).1 (by decide)

/-- C2 counterexample to the claim as stated: a device failure during
recording is a session that runs from `start` to a terminal event (its
trace ends in `error`), yet its trace — `recordingStarted` then `error` —
has no `recordingStopped` and no `transcribing`, so it does not have the
claimed shape. -/
theorem session_event_order_counterexample :
    (runS (idleSession defaultConfig)
        [.start "Notes", .deviceError "microphone disconnected"]).trace =
      [.recordingStarted "Notes", .error "microphone disconnected"] ∧
    ((runS (idleSession defaultConfig)
        [.start "Notes", .deviceError "microphone disconnected"]).trace.any
      isTerminalEvent) = true ∧
    claimedTraceShape
      (runS (idleSession defaultConfig)
        [.start "Notes", .deviceError "microphone disconnected"]).trace = false :=
  ⟨rfl, rfl, rfl⟩

/-- C10.  After each received audio level the overlay history holds at most
40 entries, ends with the level just received, and — when it already held
40 — drops exactly the oldest entry. -/
theorem level_history_bounded :
    ∀ (h : List ℚ) (x : ℚ), h.length ≤ 40 →
      (pushLevel h x).length ≤ 40 ∧
      (pushLevel h x).getLast? = some x ∧
      (h.length = 40 → pushLevel h x = h.tail ++ [x]) := by
  intro h x hlen
  unfold pushLevel
  by_cases h40 : h.length = 40
  · have hgt : 40 < (h ++ [x]).length := by simp [h40]
    rw [if_pos hgt]
    cases h with
    | nil => simp at h40
    | cons a t =>
      refine ⟨?_, ?_, fun _ => rfl⟩
      · simp only [List.length_cons] at h40
        simp
        omega
      · simp [List.getLast?_append_cons]
  · have hng : ¬ 40 < (h ++ [x]).length := by
      simp only [List.length_append, List.length_singleton]
      omega
    rw [if_neg hng]
    refine ⟨?_, ?_, fun hc => absurd hc h40⟩
    · simp only [List.length_append, List.length_singleton]
      omega
    · simp [List.getLast?_append_cons]

/-- C10 witness: pushing onto a concrete full history of 40 zeros keeps 40
entries, ends with the new level, and drops the oldest entry. -/
theorem level_history_bounded_check :
    (pushLevel (List.replicate 40 (0 : ℚ)) (1 / 2)).length ≤ 40 ∧
    (pushLevel (List.replicate 40 (0 : ℚ)) (1 / 2)).getLast? = some (1 / 2) ∧
    ((List.replicate 40 (0 : ℚ)).length = 40 →
      pushLevel (List.replicate 40 (0 : ℚ)) (1 / 2) =
        (List.replicate 40 (0 : ℚ)).tail ++ [1 / 2]) :=
  level_history_bounded (List.replicate 40 (0 : ℚ)) (1 / 2) (by simp)

end Blah3
